import Mathlib

/-!
# Verification of the magic-images conversion orchestrator

Shallow embedding of `src/utils/image.ts` of the `magic-images` repository.

Modelling conventions:
* Byte buffers are `List Nat` (each entry a byte value `0..255`).
* Filesystem paths are `List String`, one entry per path component, relative
  to the process working directory (`path.join a b` becomes list append; the
  leading `./` of literals such as `./output` is dropped because it does not
  change the denoted path).
* Node `Buffer` indexing out of range yields `undefined`, and
  `undefined === k` is `false`; this is modelled by `List.get?` returning
  `none` and comparing with `some k`.
* The effectful pipeline is modelled as a pure function from an environment
  (filesystem answers and collaborator outcomes) to a trace of filesystem /
  collaborator events together with an `Except` result, mirroring the
  `async`/`await` control flow (a rejected promise aborts the remainder of
  the caller unless a `try`/`catch` intervenes).

The source file contains two revisions of `getImageFormat`: a bounded-read
variant (opens the file and reads at most 12 bytes into a zero-filled
buffer) and the `readFile`-based variant used by `convertImages`.  Both are
embedded (`detectFormatBounded` and `detectFormat` respectively).
-/

/-- Embedding of the `readFile`-based `getImageFormat` (the variant that the
`convertImages` pipeline uses).  It reads the whole file, slices the first
12 bytes and compares individual positions; an out-of-range index gives
`undefined` in Node, which fails every `===` comparison, modelled by
`List.get?` against `some`.  JPEG requires bytes `FF D8 FF`, PNG the full
8-byte signature, WebP `RIFF` at 0-3 and `WEBP` at 8-11. -/
def detectFormat (bytes : List Nat) : Option String :=
  if bytes.get? 0 = some 0xFF ∧ bytes.get? 1 = some 0xD8 ∧
      bytes.get? 2 = some 0xFF then
    some "jpg"
  else if bytes.get? 0 = some 0x89 ∧ bytes.get? 1 = some 0x50 ∧
      bytes.get? 2 = some 0x4E ∧ bytes.get? 3 = some 0x47 ∧
      bytes.get? 4 = some 0x0D ∧ bytes.get? 5 = some 0x0A ∧
      bytes.get? 6 = some 0x1A ∧ bytes.get? 7 = some 0x0A then
    some "png"
  else if bytes.get? 0 = some 0x52 ∧ bytes.get? 1 = some 0x49 ∧
      bytes.get? 2 = some 0x46 ∧ bytes.get? 3 = some 0x46 ∧
      bytes.get? 8 = some 0x57 ∧ bytes.get? 9 = some 0x45 ∧
      bytes.get? 10 = some 0x42 ∧ bytes.get? 11 = some 0x50 then
    some "webp"
  else
    none

/-- Embedding of the bounded-read `getImageFormat` variant: it allocates a
zero-filled 12-byte buffer, reads `bytesRead = min (file length) 12` bytes
into it (written inline below), returns `null` when `bytesRead < 4`, accepts
JPEG on `FF D8` alone, PNG on the 4-byte `\x89PNG` prefix, and WebP on
`RIFF` + `bytesRead >= 12` + `WEBP`.  Positions beyond `bytesRead` read the
zero fill, modelled by `List.getD _ 0`. -/
def detectFormatBounded (bytes : List Nat) : Option String :=
  if min bytes.length 12 < 4 then
    none
  else if bytes.getD 0 0 = 0xFF ∧ bytes.getD 1 0 = 0xD8 then
    some "jpg"
  else if bytes.getD 0 0 = 0x89 ∧ bytes.getD 1 0 = 0x50 ∧
      bytes.getD 2 0 = 0x4E ∧ bytes.getD 3 0 = 0x47 then
    some "png"
  else if bytes.getD 0 0 = 0x52 ∧ bytes.getD 1 0 = 0x49 ∧
      bytes.getD 2 0 = 0x46 ∧ bytes.getD 3 0 = 0x46 ∧
      12 ≤ min bytes.length 12 ∧ bytes.getD 8 0 = 0x57 ∧
      bytes.getD 9 0 = 0x45 ∧ bytes.getD 10 0 = 0x42 ∧
      bytes.getD 11 0 = 0x50 then
    some "webp"
  else
    none

section SnifferLemmas

lemma getD_of_get? {l : List Nat} {i v : Nat} (h : l.get? i = some v) :
    l.getD i 0 = v := by
  rw [List.getD_eq_getElem?_getD, ← List.get?_eq_getElem?, h]
  rfl

lemma detectFormat_nil : detectFormat [] = none := by decide

lemma detectFormat_singleton (a : Nat) : detectFormat [a] = none := by
  simp [detectFormat]

lemma detectFormat_pair (a b : Nat) : detectFormat [a, b] = none := by
  simp [detectFormat]

lemma detectFormat_triple (a b c : Nat) (h : ¬(a = 0xFF ∧ b = 0xD8 ∧ c = 0xFF)) :
    detectFormat [a, b, c] = none := by
  simp only [detectFormat, List.get?]
  rw [if_neg, if_neg, if_neg]
  · simp
  · simp
  · simpa using h

end SnifferLemmas

/-- C2, counterexample: the `readFile`-based `getImageFormat` classifies the
3-byte buffer `FF D8 FF` as `jpg`, so it is not true that every file shorter
than 4 bytes is reported as unknown. -/
theorem c2_short_file_not_unknown :
    ([0xFF, 0xD8, 0xFF] : List Nat).length < 4 ∧
      detectFormat [0xFF, 0xD8, 0xFF] ≠ none := by decide

/-- C2, amended: the bounded-read `getImageFormat` variant returns unknown
for every buffer shorter than 4 bytes; the `readFile`-based variant does so
for every such buffer except the single 3-byte buffer `FF D8 FF`, which it
classifies as `jpg`. -/
theorem c2_short_files_unknown :
    (∀ bytes : List Nat, bytes.length < 4 → detectFormatBounded bytes = none) ∧
      (∀ bytes : List Nat, bytes.length < 4 → bytes ≠ [0xFF, 0xD8, 0xFF] →
        detectFormat bytes = none) := by
  constructor
  · intro bytes h
    unfold detectFormatBounded
    rw [if_pos (by omega)]
  · intro bytes h hne
    match bytes with
    | [] => exact detectFormat_nil
    | [a] => exact detectFormat_singleton a
    | [a, b] => exact detectFormat_pair a b
    | [a, b, c] =>
      refine detectFormat_triple a b c ?_
      rintro ⟨rfl, rfl, rfl⟩
      exact hne rfl
    | _ :: _ :: _ :: _ :: _ =>
      simp only [List.length_cons] at h
      omega

/-- C2 witness: instantiating the amended statement at the empty buffer and
at the 1-byte buffer `FF`. -/
theorem c2_short_files_unknown_witness :
    detectFormatBounded [] = none ∧ detectFormat [0xFF] = none :=
  ⟨c2_short_files_unknown.1 [] (by decide),
    c2_short_files_unknown.2 [0xFF] (by decide) (by decide)⟩

/-- C3, counterexample: the buffer `FF D8 00 00` has length 4 and begins with
`FF D8`, yet the `readFile`-based `getImageFormat` returns unknown (its JPEG
check also requires byte 2 = `FF`), so the claim "returns jpg with no
condition on the third byte" fails on that variant. -/
theorem c3_third_byte_matters :
    4 ≤ ([0xFF, 0xD8, 0x00, 0x00] : List Nat).length ∧
      ([0xFF, 0xD8, 0x00, 0x00] : List Nat).get? 0 = some 0xFF ∧
      ([0xFF, 0xD8, 0x00, 0x00] : List Nat).get? 1 = some 0xD8 ∧
      detectFormat [0xFF, 0xD8, 0x00, 0x00] ≠ some "jpg" := by decide

/-- C3, amended: for buffers of length at least 4 beginning `FF D8`, the
bounded-read `getImageFormat` variant returns `jpg` with no condition on the
third byte, while the `readFile`-based variant used by the pipeline returns
`jpg` exactly when the third byte is additionally `FF` (and unknown
otherwise). -/
theorem c3_jpeg_leading_bytes (bytes : List Nat) (hlen : 4 ≤ bytes.length)
    (h0 : bytes.get? 0 = some 0xFF) (h1 : bytes.get? 1 = some 0xD8) :
    detectFormatBounded bytes = some "jpg" ∧
      (bytes.get? 2 = some 0xFF → detectFormat bytes = some "jpg") ∧
      (bytes.get? 2 ≠ some 0xFF → detectFormat bytes = none) := by
  refine ⟨?_, ?_, ?_⟩
  · unfold detectFormatBounded
    rw [if_neg (by omega), if_pos ⟨getD_of_get? h0, getD_of_get? h1⟩]
  · intro h2
    unfold detectFormat
    rw [if_pos ⟨h0, h1, h2⟩]
  · intro h2
    unfold detectFormat
    rw [if_neg, if_neg, if_neg]
    · rintro ⟨ha, -⟩
      rw [h0] at ha
      simp at ha
    · rintro ⟨ha, -⟩
      rw [h0] at ha
      simp at ha
    · rintro ⟨-, -, hc⟩
      exact h2 hc

/-- C3 witness: the amended statement applied to the concrete buffers
`FF D8 00 00` and `FF D8 FF 00`. -/
theorem c3_jpeg_leading_bytes_witness :
    detectFormatBounded [0xFF, 0xD8, 0x00, 0x00] = some "jpg" ∧
      detectFormat [0xFF, 0xD8, 0xFF, 0x00] = some "jpg" :=
  ⟨(c3_jpeg_leading_bytes [0xFF, 0xD8, 0x00, 0x00] (by decide) (by decide) (by decide)).1,
    (c3_jpeg_leading_bytes [0xFF, 0xD8, 0xFF, 0x00] (by decide) (by decide)
        (by decide)).2.1 (by decide)⟩

/-- C8: for every buffer whose bytes 0-3 spell `RIFF`, both `getImageFormat`
variants return `webp` when at least 12 bytes are available and bytes 8-11
spell `WEBP`, and both return unknown when fewer than 12 bytes are
available. -/
theorem c8_webp_riff (bytes : List Nat)
    (h0 : bytes.get? 0 = some 0x52) (h1 : bytes.get? 1 = some 0x49)
    (h2 : bytes.get? 2 = some 0x46) (h3 : bytes.get? 3 = some 0x46) :
    (12 ≤ bytes.length →
      bytes.get? 8 = some 0x57 → bytes.get? 9 = some 0x45 →
      bytes.get? 10 = some 0x42 → bytes.get? 11 = some 0x50 →
      detectFormat bytes = some "webp" ∧
        detectFormatBounded bytes = some "webp") ∧
    (bytes.length < 12 →
      detectFormat bytes = none ∧ detectFormatBounded bytes = none) := by
  have hlen4 : 4 ≤ bytes.length := by
    by_contra hc
    rw [List.get?_eq_none.mpr (by omega)] at h3
    simp at h3
  have g0 := getD_of_get? h0
  constructor
  · intro hlen h8 h9 h10 h11
    constructor
    · unfold detectFormat
      rw [if_neg, if_neg, if_pos ⟨h0, h1, h2, h3, h8, h9, h10, h11⟩]
      · rintro ⟨ha, -⟩
        rw [h0] at ha
        simp at ha
      · rintro ⟨ha, -⟩
        rw [h0] at ha
        simp at ha
    · unfold detectFormatBounded
      rw [if_neg (by omega), if_neg, if_neg, if_pos]
      · exact ⟨g0, getD_of_get? h1, getD_of_get? h2, getD_of_get? h3,
          by omega, getD_of_get? h8, getD_of_get? h9, getD_of_get? h10,
          getD_of_get? h11⟩
      · rintro ⟨ha, -⟩
        rw [g0] at ha
        omega
      · rintro ⟨ha, -⟩
        rw [g0] at ha
        omega
  · intro hlen
    have h11 : bytes.get? 11 = none := by
      rw [List.get?_eq_none]
      omega
    constructor
    · unfold detectFormat
      rw [if_neg, if_neg, if_neg]
      · rintro ⟨-, -, -, -, -, -, -, hc⟩
        rw [h11] at hc
        simp at hc
      · rintro ⟨ha, -⟩
        rw [h0] at ha
        simp at ha
      · rintro ⟨ha, -⟩
        rw [h0] at ha
        simp at ha
    · unfold detectFormatBounded
      rw [if_neg (by omega), if_neg, if_neg, if_neg]
      · rintro ⟨-, -, -, -, hc, -⟩
        omega
      · rintro ⟨ha, -⟩
        rw [g0] at ha
        omega
      · rintro ⟨ha, -⟩
        rw [g0] at ha
        omega

/-- C8 witness: the theorem applied to a full 12-byte `RIFF....WEBP` header
and to the bare 4-byte `RIFF` prefix. -/
theorem c8_webp_riff_witness :
    detectFormat [0x52, 0x49, 0x46, 0x46, 0, 0, 0, 0,
        0x57, 0x45, 0x42, 0x50] = some "webp" ∧
      detectFormat [0x52, 0x49, 0x46, 0x46] = none :=
  ⟨((c8_webp_riff [0x52, 0x49, 0x46, 0x46, 0, 0, 0, 0, 0x57, 0x45, 0x42, 0x50]
      (by decide) (by decide) (by decide) (by decide)).1 (by decide)
      (by decide) (by decide) (by decide) (by decide)).1,
    ((c8_webp_riff [0x52, 0x49, 0x46, 0x46] (by decide) (by decide)
      (by decide) (by decide)).2 (by decide)).1⟩

/-! ## Path model: `path` operations used by `processFile` -/

/-- A filesystem path, one component per entry, relative to the working
directory. -/
abbrev FsPath := List String

/-- Index of the last `.` in a component, or `none`. -/
def lastDotIdx : List Char → Option Nat
  | [] => none
  | c :: rest =>
    match lastDotIdx rest with
    | some i => some (i + 1)
    | none => if c = '.' then some 0 else none

/-- Node `path.extname` restricted to a single path component (which is how
`processFile` uses it: `extname` only ever inspects the final component):
the suffix from the last dot, except that a dot in first position yields no
extension (hidden files) and the special name `..` yields no extension. -/
def extnameCore (cs : List Char) : List Char :=
  match lastDotIdx cs with
  | none => []
  | some d => if d = 0 ∨ cs = ['.', '.'] then [] else cs.drop d

def extname (s : String) : String := String.mk (extnameCore s.data)

/-- Node `path.basename(p, path.extname(p))` on the final component: the
component with its extension (as computed by `extnameCore`) removed. -/
def fileStemCore (cs : List Char) : List Char :=
  match lastDotIdx cs with
  | none => cs
  | some d => if d = 0 ∨ cs = ['.', '.'] then cs else cs.take d

def fileStem (s : String) : String := String.mk (fileStemCore s.data)

/-- Model of `path.relative(base, p)` for the configurations the pipeline produces:
`p` lies underneath `base` (in single-file mode `p = base` and the result is
the empty relative path, Node's `""`). -/
def relAsList (base p : FsPath) : FsPath := p.drop base.length

/-- Output file name computed by `processFile` (lines 203-204):
`basename(inputPath, extname(inputPath)) ++ "." ++ format`. -/
def outputFileName (inputPath : FsPath) (format : String) : String :=
  fileStem (inputPath.getLastD "") ++ "." ++ format

/-- Output directory computed by `processFile` (lines 207-214): the input's
directory relative to the base root, re-created below the output root.  The
empty list models Node `path.dirname` returning `"."` (the code's
`relativeDir !== '.'` test). -/
def mapOutputDir (inputPath baseInputDir outputDir : FsPath) : FsPath :=
  let relativeDir := (relAsList baseInputDir inputPath).dropLast
  if relativeDir = [] then outputDir else outputDir ++ relativeDir

/-- Full output path computed by `processFile` (line 216). -/
def mapOutputPath (inputPath baseInputDir outputDir : FsPath)
    (format : String) : FsPath :=
  mapOutputDir inputPath baseInputDir outputDir ++
    [outputFileName inputPath format]

section PathLemmas

lemma mk_append (a b : List Char) :
    String.mk a ++ String.mk b = String.mk (a ++ b) := rfl

/-- The stem and the extension partition the original component: what
`processFile` strips from the name is exactly its extension. -/
lemma fileStem_append_extname (s : String) : fileStem s ++ extname s = s := by
  unfold fileStem extname fileStemCore extnameCore
  cases h : lastDotIdx s.data with
  | none => simp [mk_append]
  | some d =>
    by_cases hc : d = 0 ∨ s.data = ['.', '.']
    · simp [hc, mk_append]
    · simp [hc, mk_append, List.take_append_drop]

lemma relAsList_append (base rel : FsPath) :
    relAsList base (base ++ rel) = rel := by
  unfold relAsList
  exact List.drop_left base rel

end PathLemmas

/-- C6: for every valid pair of base root and input file path (the input
lies under the base root, i.e. equals `base ++ rel`), the output path
computed by `processFile` places the file at position `rel.dropLast` below
the output root — the same position the input had relative to the base
root — and the output file name is the input's base name with its original
extension (whatever it was: `fileStem` and `extname` partition the name)
replaced by `.` followed by the target format token; when the base root
equals the input path itself (`rel = []`, single-file mode) the output file
lands directly in the output root. -/
theorem c6_output_path_mapping (base rel outputRoot : FsPath)
    (format : String) :
    mapOutputPath (base ++ rel) base outputRoot format =
        outputRoot ++ rel.dropLast ++
          [fileStem ((base ++ rel).getLastD "") ++ "." ++ format] ∧
      fileStem ((base ++ rel).getLastD "") ++
          extname ((base ++ rel).getLastD "") = (base ++ rel).getLastD "" ∧
      (rel = [] → mapOutputPath (base ++ rel) base outputRoot format =
        outputRoot ++ [fileStem (base.getLastD "") ++ "." ++ format]) := by
  have hmap : mapOutputPath (base ++ rel) base outputRoot format =
      outputRoot ++ rel.dropLast ++
        [fileStem ((base ++ rel).getLastD "") ++ "." ++ format] := by
    unfold mapOutputPath mapOutputDir outputFileName
    rw [relAsList_append]
    by_cases hd : rel.dropLast = []
    · simp [hd]
    · simp [hd, List.append_assoc]
  refine ⟨hmap, fileStem_append_extname _, ?_⟩
  intro hrel
  subst hrel
  simpa using hmap

/-! ## Validation helpers (`validateFormat`, `validateQuality`) -/

/-- JS `String.prototype.toLowerCase` on the ASCII format tokens the tool
compares against. -/
def toLowerStr (s : String) : String := String.mk (s.data.map Char.toLower)

/-- Embedding of `validateFormat` (lines 126-129): membership of the lowercased token in
the supported list. -/
def validateFormat (format : String) : Bool :=
  ["jpg", "jpeg", "png", "webp"].contains (toLowerStr format)

/-- JS whitespace accepted by `parseInt` before the number. -/
def jsWhitespace (c : Char) : Bool :=
  c = ' ' ∨ c = '\t' ∨ c = '\n' ∨ c = '\r' ∨
    c = Char.ofNat 11 ∨ c = Char.ofNat 12

/-- Decimal value of a digit string. -/
def digitsToNat (ds : List Char) : Nat :=
  ds.foldl (fun a c => a * 10 + (c.toNat - 48)) 0

/-- JS `parseInt(s, 10)`: skip leading whitespace, an optional single sign,
then the longest prefix of decimal digits; `NaN` (here `none`) when that
prefix is empty. -/
def parseIntJS (s : String) : Option Int :=
  let cs := s.data.dropWhile jsWhitespace
  let signAndRest : Bool × List Char :=
    match cs with
    | '-' :: r => (true, r)
    | '+' :: r => (false, r)
    | r => (false, r)
  let ds := signAndRest.2.takeWhile Char.isDigit
  if ds = [] then none
  else if signAndRest.1 then some (-(digitsToNat ds : Int))
  else some (digitsToNat ds)

/-- Embedding of `validateQuality` (lines 134-137): `parseInt(quality, 10)` must be a
number in `[1, 100]`. -/
def validateQuality (quality : String) : Bool :=
  match parseIntJS quality with
  | none => false
  | some n => decide (1 ≤ n ∧ n ≤ 100)

/-! ## Pipeline model

The effectful part of `convertImages` is embedded as a pure function from an
environment (answers of the filesystem and of the two external
collaborators) to a trace of events plus an `Except` result. -/

/-- Error kinds thrown by the pipeline (section 7 of the specification,
mapped to the `throw new Error(...)` sites of `convertImages` and its
helpers).  `operationCancelled` is the error constructed inside
`ensureOutputDirectory` when the user declines the prompt; see
`ensureOutputDirectory` below for why it can never escape. -/
inductive Err where
  | unsupportedFormat
  | invalidQuality
  | inputNotFound
  | unsupportedFileFormat
  | operationCancelled
  | encodeFailure
  | archiveFailure
  deriving DecidableEq, Repr

/-- Filesystem / collaborator events, in the order the pipeline awaits
them. -/
inductive Event where
  | statPath (p : FsPath)
  | accessDir (p : FsPath)
  | promptUser (p : FsPath)
  | mkdirDir (p : FsPath)
  | readFile (p : FsPath)
  | encode (input : FsPath) (output : FsPath) (sharpFormat : String)
      (qualityOpt : Option Int)
  | zipDir (src : FsPath) (dest : FsPath)
  | rmDir (p : FsPath)
  deriving DecidableEq, Repr

/-- A directory tree entry as enumerated by `fsPromises.readdir` +
`fsPromises.stat`. -/
inductive FSEntry where
  | file (name : String) (content : List Nat)
  | dir (name : String) (entries : List FSEntry)

/-- What `fsPromises.stat(inputPath)` finds at the pipeline's input path. -/
inductive InputNode where
  | file (content : List Nat)
  | dir (entries : List FSEntry)

/-- Environment: filesystem answers and collaborator outcomes for one
invocation.  `dirExists` answers `fsPromises.access`, `userConfirm` is the
reply to the readline prompt, `encodeOk` tells whether Sharp's
`toFormat(...).toFile(...)` resolves for a given input file, `zipOk` whether
the archiver resolves, `tempName` is the `Date.now()` suffix of the
temporary directory, and `input` the stat result of the input path. -/
structure Env where
  dirExists : FsPath → Bool
  userConfirm : Bool
  encodeOk : FsPath → Bool
  zipOk : Bool
  tempName : String
  input : Option InputNode

/-- Embedding of `ensureOutputDirectory` (lines 178-190).  The source wraps everything in
`try { access; confirm; if (!confirmed) throw OperationCancelled } catch
{ mkdir }`: the cancellation error is raised *inside* the `try` block, so
the function's own bare `catch` swallows it and runs `mkdir` (which, with
`recursive: true`, resolves even though the directory exists).  Hence the
function always resolves; its observable behaviour is only the event
trace: access, then either nothing more (directory exists and user
confirms), or prompt + mkdir (directory exists and user declines — the
swallowed cancellation), or mkdir (directory absent). -/
def ensureOutputDirectory (env : Env) (outputDir : FsPath) : List Event :=
  if env.dirExists outputDir then
    if env.userConfirm then
      [Event.accessDir outputDir, Event.promptUser outputDir]
    else
      [Event.accessDir outputDir, Event.promptUser outputDir,
        Event.mkdirDir outputDir]
  else
    [Event.accessDir outputDir, Event.mkdirDir outputDir]

/-- Embedding of `convertImage` (lines 159-173): quality is passed to the encoder only
for `jpg`/`jpeg`; `jpeg` is renamed to `jpg` for Sharp. -/
def convertImage (env : Env) (inputPath outputPath : FsPath)
    (format : String) (quality : Int) : List Event × Except Err Unit :=
  let outputOptions : Option Int :=
    if format = "jpg" ∨ format = "jpeg" then some quality else none
  let sharpFormat := if format = "jpeg" then "jpg" else format
  ([Event.encode inputPath outputPath sharpFormat outputOptions],
    if env.encodeOk inputPath then Except.ok () else Except.error Err.encodeFailure)

/-- Embedding of `processFile` (lines 195-220): sniff the file again, silently skip it if
unknown, otherwise create the relative output directory when needed and
convert. -/
def processFileM (env : Env) (inputPath : FsPath) (content : List Nat)
    (baseInputDir outputDir : FsPath) (format : String) (quality : Int) :
    List Event × Except Err Unit :=
  match detectFormat content with
  | none => ([Event.readFile inputPath], Except.ok ())
  | some _ =>
    let relativeDir := (relAsList baseInputDir inputPath).dropLast
    let outputFileDir := mapOutputDir inputPath baseInputDir outputDir
    let mkEvs : List Event :=
      if relativeDir = [] then [] else [Event.mkdirDir outputFileDir]
    let outPath := outputFileDir ++ [outputFileName inputPath format]
    let conv := convertImage env inputPath outPath format quality
    (Event.readFile inputPath :: mkEvs ++ conv.1, conv.2)

/-- Embedding of `processDirectory` (lines 225-244): iterate the directory listing; for a
subdirectory recurse only when `recursive` is set (otherwise skip it without
error); for a file, sniff it and process it when the format is known.  A
rejected `await` (a failing conversion) aborts the remaining iterations. -/
def processDir (env : Env) (items : List FSEntry)
    (currentDir baseInputDir outputDir : FsPath) (format : String)
    (quality : Int) (recursive : Bool) : List Event × Except Err Unit :=
  match items with
  | [] => ([], Except.ok ())
  | FSEntry.dir name sub :: rest =>
    let inputPath := currentDir ++ [name]
    if recursive then
      let r1 := processDir env sub inputPath baseInputDir outputDir format
        quality recursive
      match r1.2 with
      | Except.ok _ =>
        let r2 := processDir env rest currentDir baseInputDir outputDir format
          quality recursive
        (Event.statPath inputPath :: r1.1 ++ r2.1, r2.2)
      | Except.error e => (Event.statPath inputPath :: r1.1, Except.error e)
    else
      let r2 := processDir env rest currentDir baseInputDir outputDir format
        quality recursive
      (Event.statPath inputPath :: r2.1, r2.2)
  | FSEntry.file name content :: rest =>
    let inputPath := currentDir ++ [name]
    let r1 : List Event × Except Err Unit :=
      match detectFormat content with
      | none => ([Event.readFile inputPath], Except.ok ())
      | some _ =>
        let pf := processFileM env inputPath content baseInputDir outputDir
          format quality
        (Event.readFile inputPath :: pf.1, pf.2)
    match r1.2 with
    | Except.ok _ =>
      let r2 := processDir env rest currentDir baseInputDir outputDir format
        quality recursive
      (Event.statPath inputPath :: r1.1 ++ r2.1, r2.2)
    | Except.error e => (Event.statPath inputPath :: r1.1, Except.error e)

/-- The single-file / directory dispatch shared verbatim by the archive and
plain branches of `convertImages` (lines 313-324 and 345-356). -/
def runInput (env : Env) (inputPath : FsPath) (node : InputNode)
    (outRoot : FsPath) (format : String) (quality : Int)
    (recursive : Bool) : List Event × Except Err Unit :=
  match node with
  | InputNode.file content =>
    match detectFormat content with
    | none => ([Event.readFile inputPath], Except.error Err.unsupportedFileFormat)
    | some _ =>
      let pf := processFileM env inputPath content inputPath outRoot format
        quality
      (Event.readFile inputPath :: pf.1, pf.2)
  | InputNode.dir entries =>
    processDir env entries inputPath inputPath outRoot format quality recursive

/-- Append `.zip` to the final path component unless it already ends in
`.zip` (lines 305-307, stated on the component list representation). -/
def fixZipExt (p : FsPath) : FsPath :=
  match p.getLast? with
  | none => [".zip"]
  | some last =>
    if last.endsWith ".zip" then p else p.dropLast ++ [last ++ ".zip"]

/-- Embedding of `ConvertOptions` (lines 66-72); `output?: string` with the JS-falsy
empty string mapped to `none`. -/
structure ConvertOptions where
  format : String
  quality : String
  output : Option FsPath
  recursive : Bool
  zip : Bool

/-- Embedding of `convertImages` (lines 277-360): validate format, validate quality only
for jpg/jpeg targets, stat the input, then run either the archive branch
(stage into a fresh temporary directory, archive it, delete the temporary
directory on success and on every failure inside the `try`) or the plain
branch. -/
def convertImages (env : Env) (inputPath : FsPath)
    (options : ConvertOptions) : List Event × Except Err Unit :=
  let format := toLowerStr options.format
  if validateFormat format = false then
    ([], Except.error Err.unsupportedFormat)
  else if (format = "jpg" ∨ format = "jpeg") ∧
      validateQuality options.quality = false then
    ([], Except.error Err.invalidQuality)
  else
    let quality : Int :=
      if format = "jpg" ∨ format = "jpeg" then
        (parseIntJS options.quality).getD 95
      else 95
    match env.input with
    | none => ([Event.statPath inputPath], Except.error Err.inputNotFound)
    | some node =>
      if options.zip then
        let tempDir : FsPath := [".magic-images-tmp-" ++ env.tempName]
        let effectiveOut := fixZipExt (options.output.getD ["output.zip"])
        let ensureEvs := ensureOutputDirectory env tempDir
        let conv := runInput env inputPath node tempDir format quality
          options.recursive
        match conv.2 with
        | Except.error e =>
          (Event.statPath inputPath :: ensureEvs ++ conv.1 ++
            [Event.rmDir tempDir], Except.error e)
        | Except.ok _ =>
          if env.zipOk then
            (Event.statPath inputPath :: ensureEvs ++ conv.1 ++
              [Event.zipDir tempDir effectiveOut, Event.rmDir tempDir],
              Except.ok ())
          else
            (Event.statPath inputPath :: ensureEvs ++ conv.1 ++
              [Event.zipDir tempDir effectiveOut, Event.rmDir tempDir],
              Except.error Err.archiveFailure)
      else
        let effectiveOut := options.output.getD ["output"]
        let ensureEvs := ensureOutputDirectory env effectiveOut
        let conv := runInput env inputPath node effectiveOut format quality
          options.recursive
        (Event.statPath inputPath :: ensureEvs ++ conv.1, conv.2)

instance : DecidableEq (Except Err Unit) := fun a b =>
  match a, b with
  | Except.ok x, Except.ok y => isTrue (by cases x; cases y; rfl)
  | Except.error x, Except.error y =>
    if h : x = y then isTrue (by rw [h]) else isFalse (by simp [h])
  | Except.ok _, Except.error _ => isFalse (by simp)
  | Except.error _, Except.ok _ => isFalse (by simp)

section PipelineLemmas

lemma getLast?_cons_concat (a b : Event) (l : List Event) :
    (a :: (l ++ [b])).getLast? = some b := by
  rw [← List.cons_append]
  exact List.getLast?_concat _

lemma getLast?_cons_concat2 (a z b : Event) (l : List Event) :
    (a :: (l ++ [z, b])).getLast? = some b := by
  have h : l ++ [z, b] = (l ++ [z]) ++ [b] := by simp
  rw [h]
  exact getLast?_cons_concat a b (l ++ [z])

lemma accessDir_mem_ensure (env : Env) (d : FsPath) :
    Event.accessDir d ∈ ensureOutputDirectory env d := by
  unfold ensureOutputDirectory
  split
  · split <;> simp
  · simp

end PipelineLemmas

/-- C9: if the target format fails validation, or the target is jpg/jpeg and
the quality fails validation, `convertImages` raises the corresponding error
with an empty event trace: no stat of the input path, no directory creation
and no temporary workspace creation happened. -/
theorem c9_validation_before_io (env : Env) (inputPath : FsPath)
    (options : ConvertOptions)
    (h : validateFormat (toLowerStr options.format) = false ∨
      ((toLowerStr options.format = "jpg" ∨
          toLowerStr options.format = "jpeg") ∧
        validateQuality options.quality = false)) :
    convertImages env inputPath options =
      ([], Except.error
        (if validateFormat (toLowerStr options.format) then
          Err.invalidQuality
        else Err.unsupportedFormat)) := by
  unfold convertImages
  rcases h with h | ⟨hf, hq⟩
  · simp [h]
  · have hv : validateFormat (toLowerStr options.format) = true := by
      rcases hf with hf | hf <;> rw [hf] <;> decide
    rcases hf with hf | hf <;> simp [hv, hf, hq] <;> decide

/-- C9 witness: an unsupported format and an out-of-range jpg quality, both
rejected with an empty trace. -/
theorem c9_validation_before_io_witness :
    convertImages
        { dirExists := fun _ => true, userConfirm := true,
          encodeOk := fun _ => true, zipOk := true, tempName := "0",
          input := none }
        ["pics", "a.png"]
        { format := "jpg", quality := "101", output := none,
          recursive := false, zip := false } =
      ([], Except.error
        (if validateFormat (toLowerStr "jpg") then Err.invalidQuality
        else Err.unsupportedFormat)) :=
  c9_validation_before_io _ _ _ (Or.inr ⟨Or.inl (by decide), by decide⟩)

/-- Concrete scenario refuting C1: the plain-mode output directory `out`
already exists, the user declines the overwrite prompt, the input is a
single file with a JPEG signature, and the encoder succeeds. -/
def c1Env : Env where
  dirExists := fun p => decide (p = ["out"])
  userConfirm := false
  encodeOk := fun _ => true
  zipOk := true
  tempName := "0"
  input := some (InputNode.file [0xFF, 0xD8, 0xFF, 0xE0])

def c1Options : ConvertOptions where
  format := "jpg"
  quality := "95"
  output := some ["out"]
  recursive := false
  zip := false

/-- C1: evaluating `convertImages` at the failing input.  The cancellation
error that `ensureOutputDirectory` throws after the declined prompt is
raised inside its own `try` block, so the adjacent bare `catch` (intended
for the directory-does-not-exist case) swallows it and runs
`mkdir(..., { recursive: true })`, which resolves on the existing
directory.  The pipeline therefore continues: the encoder is invoked and
the run succeeds, instead of failing with `OperationCancelled` and
performing no conversions as the claim (and the spec) require. -/
theorem c1_cancellation_swallowed :
    (convertImages c1Env ["pics", "a.png"] c1Options).2 = Except.ok () ∧
      Event.promptUser ["out"] ∈
        (convertImages c1Env ["pics", "a.png"] c1Options).1 ∧
      Event.mkdirDir ["out"] ∈
        (convertImages c1Env ["pics", "a.png"] c1Options).1 ∧
      Event.encode ["pics", "a.png"] ["out", "a.jpg"] "jpg" (some 95) ∈
        (convertImages c1Env ["pics", "a.png"] c1Options).1 := by
  decide

/-- C4: in archive (zip) mode, once validation and the input stat have
passed, every exit path of the pipeline ends by deleting the temporary
workspace — the very last event of the trace is always the `rm` of the
temporary directory, whether the conversions succeeded, a conversion
failed, or the archiver failed — and an archiver failure still leaves the
pipeline with a failure result. -/
theorem c4_temp_workspace_cleanup (env : Env) (inputPath : FsPath)
    (options : ConvertOptions) (node : InputNode)
    (hzip : options.zip = true) (hin : env.input = some node)
    (hfmt : validateFormat (toLowerStr options.format) = true)
    (hq : (toLowerStr options.format = "jpg" ∨
        toLowerStr options.format = "jpeg") →
      validateQuality options.quality = true) :
    (convertImages env inputPath options).1.getLast? =
        some (Event.rmDir [".magic-images-tmp-" ++ env.tempName]) ∧
      Event.accessDir [".magic-images-tmp-" ++ env.tempName] ∈
        (convertImages env inputPath options).1 ∧
      (env.zipOk = false →
        (convertImages env inputPath options).2 ≠ Except.ok ()) := by
  have h2 : ¬((toLowerStr options.format = "jpg" ∨
      toLowerStr options.format = "jpeg") ∧
      validateQuality options.quality = false) := by
    rintro ⟨ha, hb⟩
    rw [hq ha] at hb
    cases hb
  unfold convertImages
  dsimp only
  rw [if_neg (by simp [hfmt]), if_neg h2, hin]
  dsimp only
  rw [if_pos hzip]
  split
  · rename_i e heq
    refine ⟨?_, ?_, fun _ => by simp⟩
    · exact getLast?_cons_concat _ _ _
    · exact List.mem_cons_of_mem _
        (List.mem_append_left _ (List.mem_append_left _
          (accessDir_mem_ensure env _)))
  · by_cases hz : env.zipOk = true
    · rw [if_pos hz]
      refine ⟨getLast?_cons_concat2 _ _ _ _, ?_, fun hzf => by rw [hzf] at hz; cases hz⟩
      exact List.mem_cons_of_mem _
        (List.mem_append_left _ (List.mem_append_left _
          (accessDir_mem_ensure env _)))
    · rw [if_neg hz]
      refine ⟨getLast?_cons_concat2 _ _ _ _, ?_, fun _ => by simp⟩
      exact List.mem_cons_of_mem _
        (List.mem_append_left _ (List.mem_append_left _
          (accessDir_mem_ensure env _)))

/-- Archive-mode scenario with a failing archiver, used to witness C4. -/
def c4Env : Env where
  dirExists := fun _ => false
  userConfirm := true
  encodeOk := fun _ => true
  zipOk := false
  tempName := "123"
  input := some (InputNode.file [0xFF, 0xD8, 0xFF, 0xE0])

def c4Options : ConvertOptions where
  format := "png"
  quality := "x"
  output := none
  recursive := false
  zip := true

/-- C4 witness: the cleanup theorem applied to a concrete archive-mode run
whose archiver fails. -/
theorem c4_temp_workspace_cleanup_witness :
    (convertImages c4Env ["a.jpg"] c4Options).1.getLast? =
        some (Event.rmDir [".magic-images-tmp-" ++ c4Env.tempName]) ∧
      Event.accessDir [".magic-images-tmp-" ++ c4Env.tempName] ∈
        (convertImages c4Env ["a.jpg"] c4Options).1 ∧
      (c4Env.zipOk = false →
        (convertImages c4Env ["a.jpg"] c4Options).2 ≠ Except.ok ()) :=
  c4_temp_workspace_cleanup c4Env ["a.jpg"] c4Options
    (InputNode.file [0xFF, 0xD8, 0xFF, 0xE0]) rfl rfl (by decide)
    (fun h => absurd h (by decide))

section ResultLemmas

lemma processFileM_result (env : Env) (inputPath : FsPath)
    (content : List Nat) (base out : FsPath) (format : String)
    (quality : Int) :
    (processFileM env inputPath content base out format quality).2 =
        Except.ok () ∨
      (processFileM env inputPath content base out format quality).2 =
        Except.error Err.encodeFailure := by
  unfold processFileM convertImage
  cases detectFormat content
  · simp
  · dsimp only
    cases henc : env.encodeOk inputPath <;> simp [henc]

theorem processDir_result (env : Env) (items : List FSEntry)
    (cur base out : FsPath) (format : String) (quality : Int)
    (recursive : Bool) :
    (processDir env items cur base out format quality recursive).2 =
        Except.ok () ∨
      (processDir env items cur base out format quality recursive).2 =
        Except.error Err.encodeFailure :=
  match items with
  | [] => by simp [processDir]
  | FSEntry.dir name sub :: rest => by
    have ih1 := processDir_result env sub (cur ++ [name]) base out format
      quality recursive
    have ih2 := processDir_result env rest cur base out format quality
      recursive
    unfold processDir
    dsimp only
    by_cases hr : recursive = true
    · rw [if_pos hr]
      cases hs : (processDir env sub (cur ++ [name]) base out format quality
          recursive).2 with
      | error e =>
        rw [hs] at ih1
        dsimp only
        rcases ih1 with ih1 | ih1
        · cases ih1
        · right
          exact ih1
      | ok u => exact ih2
    · rw [if_neg hr]
      exact ih2
  | FSEntry.file name content :: rest => by
    have ihf := processFileM_result env (cur ++ [name]) content base out
      format quality
    have ih2 := processDir_result env rest cur base out format quality
      recursive
    unfold processDir
    dsimp only
    cases hdet : detectFormat content with
    | none => exact ih2
    | some fmt =>
      dsimp only
      cases hs : (processFileM env (cur ++ [name]) content base out format
          quality).2 with
      | error e =>
        rw [hs] at ihf
        dsimp only
        rcases ihf with ihf | ihf
        · cases ihf
        · right
          exact ihf
      | ok u => exact ih2

lemma runInput_result (env : Env) (inputPath : FsPath) (node : InputNode)
    (outRoot : FsPath) (format : String) (quality : Int)
    (recursive : Bool) :
    (runInput env inputPath node outRoot format quality recursive).2 =
        Except.ok () ∨
      (runInput env inputPath node outRoot format quality recursive).2 =
        Except.error Err.encodeFailure ∨
      (runInput env inputPath node outRoot format quality recursive).2 =
        Except.error Err.unsupportedFileFormat := by
  unfold runInput
  cases node with
  | file content =>
    dsimp only
    rcases hdet : detectFormat content with _ | fmt
    · dsimp only
      right
      right
      rfl
    · dsimp only
      rcases processFileM_result env inputPath content inputPath outRoot
          format quality with h | h
      · left
        exact h
      · right
        left
        exact h
  | dir entries =>
    dsimp only
    rcases processDir_result env entries inputPath inputPath outRoot format
        quality recursive with h | h
    · left
      exact h
    · right
      left
      exact h

end ResultLemmas

section QualityLemmas

/-- For png/webp targets the pipeline never reads the raw quality string:
the jpg/jpeg validation branch is skipped and the internal quality is the
constant 95. -/
lemma convertImages_quality_irrelevant (env : Env) (inputPath : FsPath)
    (f q1 q2 : String) (o : Option FsPath) (r z : Bool)
    (hf : toLowerStr f = "png" ∨ toLowerStr f = "webp") :
    convertImages env inputPath ⟨f, q1, o, r, z⟩ =
      convertImages env inputPath ⟨f, q2, o, r, z⟩ := by
  unfold convertImages
  rcases hf with hf | hf
  · have e1 : validateFormat "png" = true := by decide
    simp [hf, e1]
  · have e1 : validateFormat "webp" = true := by decide
    simp [hf, e1]

/-- For png/webp targets the result is never `InvalidQuality`. -/
lemma convertImages_no_invalidQuality (env : Env) (inputPath : FsPath)
    (f q : String) (o : Option FsPath) (r z : Bool)
    (hf : toLowerStr f = "png" ∨ toLowerStr f = "webp") :
    (convertImages env inputPath ⟨f, q, o, r, z⟩).2 ≠
      Except.error Err.invalidQuality := by
  have hjp : ¬((toLowerStr f = "jpg" ∨ toLowerStr f = "jpeg") ∧
      validateQuality q = false) := by
    rintro ⟨h, -⟩
    rcases hf with hf | hf <;> rcases h with h | h <;> rw [hf] at h <;>
      exact absurd h (by decide)
  have hv : validateFormat (toLowerStr f) = true := by
    rcases hf with hf | hf <;> rw [hf] <;> decide
  unfold convertImages
  dsimp only
  rw [if_neg (by simp [hv]), if_neg hjp]
  cases env.input with
  | none => simp
  | some node =>
    dsimp only
    by_cases hz : z = true
    · rw [if_pos hz]
      rcases runInput_result env inputPath node
          [".magic-images-tmp-" ++ env.tempName] (toLowerStr f)
          (if toLowerStr f = "jpg" ∨ toLowerStr f = "jpeg" then
            (parseIntJS q).getD 95 else 95) r with h | h | h <;>
        rw [h] <;> dsimp only
      · by_cases hzz : env.zipOk = true
        · rw [if_pos hzz]
          simp
        · rw [if_neg hzz]
          simp
      · simp
      · simp
    · rw [if_neg hz]
      rcases runInput_result env inputPath node (o.getD ["output"])
          (toLowerStr f)
          (if toLowerStr f = "jpg" ∨ toLowerStr f = "jpeg" then
            (parseIntJS q).getD 95 else 95) r with h | h | h <;>
        rw [h] <;> simp

end QualityLemmas

/-- C5: for jpg and jpeg target formats the quality strings `"0"`, `"101"`
and every non-numeric string are rejected with `InvalidQuality`, while `"1"`
and `"100"` are accepted (the bounds are inclusive); for png and webp
targets the quality value is never consulted (identical runs up to the
quality string) and no quality value can produce an `InvalidQuality`
failure. -/
theorem c5_quality_validation :
    validateQuality "0" = false ∧ validateQuality "101" = false ∧
      validateQuality "1" = true ∧ validateQuality "100" = true ∧
      (∀ q : String, parseIntJS q = none → validateQuality q = false) ∧
      (∀ (env : Env) (inputPath : FsPath) (f q : String) (o : Option FsPath)
          (r z : Bool),
        (toLowerStr f = "jpg" ∨ toLowerStr f = "jpeg") →
        validateQuality q = false →
        convertImages env inputPath ⟨f, q, o, r, z⟩ =
          ([], Except.error Err.invalidQuality)) ∧
      (∀ (env : Env) (inputPath : FsPath) (f q1 q2 : String)
          (o : Option FsPath) (r z : Bool),
        (toLowerStr f = "png" ∨ toLowerStr f = "webp") →
        convertImages env inputPath ⟨f, q1, o, r, z⟩ =
            convertImages env inputPath ⟨f, q2, o, r, z⟩ ∧
          (convertImages env inputPath ⟨f, q1, o, r, z⟩).2 ≠
            Except.error Err.invalidQuality) := by
  refine ⟨by decide, by decide, by decide, by decide, ?_, ?_, ?_⟩
  · intro q hq
    unfold validateQuality
    rw [hq]
  · intro env inputPath f q o r z hf hq
    have hv : validateFormat (toLowerStr f) = true := by
      rcases hf with hf | hf <;> rw [hf] <;> decide
    unfold convertImages
    dsimp only
    rw [if_neg (by simp [hv]), if_pos ⟨hf, hq⟩]
  · intro env inputPath f q1 q2 o r z hf
    exact ⟨convertImages_quality_irrelevant env inputPath f q1 q2 o r z hf,
      convertImages_no_invalidQuality env inputPath f q1 o r z hf⟩

/-- A neutral environment for instantiating pipeline theorems. -/
def sampleEnv : Env where
  dirExists := fun _ => false
  userConfirm := true
  encodeOk := fun _ => true
  zipOk := true
  tempName := "42"
  input := some (InputNode.file [0xFF, 0xD8, 0xFF, 0xE0])

/-- C5 witness: the rejection clause applied at quality `"abc"` for a jpg
target, and the indifference clause at a png target. -/
theorem c5_quality_validation_witness :
    convertImages sampleEnv ["a.jpg"] ⟨"jpg", "abc", none, false, false⟩ =
        ([], Except.error Err.invalidQuality) ∧
      (convertImages sampleEnv ["a.jpg"] ⟨"png", "0", none, false, false⟩).2 ≠
        Except.error Err.invalidQuality :=
  ⟨c5_quality_validation.2.2.2.2.2.1 sampleEnv ["a.jpg"] "jpg" "abc" none
      false false (Or.inl (by decide)) (by decide),
    (c5_quality_validation.2.2.2.2.2.2 sampleEnv ["a.jpg"] "png" "0" "1" none
      false false (Or.inl (by decide))).2⟩

section EncodeOptionLemmas

lemma encode_not_mem_ensure (env : Env) (d i o : FsPath) (sf : String)
    (qo : Option Int) :
    Event.encode i o sf qo ∉ ensureOutputDirectory env d := by
  unfold ensureOutputDirectory
  split
  · split <;> simp
  · simp

lemma encode_some_not_in_processFileM (env : Env) (inputPath : FsPath)
    (content : List Nat) (base out : FsPath) (format : String)
    (quality : Int) (hf1 : format ≠ "jpg") (hf2 : format ≠ "jpeg")
    (i o : FsPath) (sf : String) (q : Int) :
    Event.encode i o sf (some q) ∉
      (processFileM env inputPath content base out format quality).1 := by
  have hor : ¬(format = "jpg" ∨ format = "jpeg") := by
    rintro (h | h)
    · exact hf1 h
    · exact hf2 h
  unfold processFileM convertImage
  cases detectFormat content
  · simp
  · dsimp only
    rw [if_neg hor]
    by_cases hrel : ((relAsList base inputPath).dropLast : FsPath) = []
    · simp [hrel]
    · simp [hrel]

theorem encode_some_not_in_processDir (env : Env) (items : List FSEntry)
    (cur base out : FsPath) (format : String) (quality : Int)
    (recursive : Bool) (hf1 : format ≠ "jpg") (hf2 : format ≠ "jpeg")
    (i o : FsPath) (sf : String) (q : Int) :
    Event.encode i o sf (some q) ∉
      (processDir env items cur base out format quality recursive).1 :=
  match items with
  | [] => by simp [processDir]
  | FSEntry.dir name sub :: rest => by
    have ih1 := encode_some_not_in_processDir env sub (cur ++ [name]) base
      out format quality recursive hf1 hf2 i o sf q
    have ih2 := encode_some_not_in_processDir env rest cur base out format
      quality recursive hf1 hf2 i o sf q
    unfold processDir
    dsimp only
    by_cases hr : recursive = true
    · rw [if_pos hr]
      cases hs : (processDir env sub (cur ++ [name]) base out format quality
          recursive).2 with
      | error e =>
        dsimp only
        simp [ih1]
      | ok u =>
        dsimp only
        simp [ih1, ih2]
    · rw [if_neg hr]
      simp [ih2]
  | FSEntry.file name content :: rest => by
    have ihf := encode_some_not_in_processFileM env (cur ++ [name]) content
      base out format quality hf1 hf2 i o sf q
    have ih2 := encode_some_not_in_processDir env rest cur base out format
      quality recursive hf1 hf2 i o sf q
    unfold processDir
    dsimp only
    cases hdet : detectFormat content with
    | none =>
      dsimp only
      simp [ih2]
    | some fmt =>
      dsimp only
      cases hs : (processFileM env (cur ++ [name]) content base out format
          quality).2 with
      | error e =>
        dsimp only
        simp [ihf]
      | ok u =>
        dsimp only
        simp [ihf, ih2]

lemma encode_some_not_in_runInput (env : Env) (inputPath : FsPath)
    (node : InputNode) (outRoot : FsPath) (format : String) (quality : Int)
    (recursive : Bool) (hf1 : format ≠ "jpg") (hf2 : format ≠ "jpeg")
    (i o : FsPath) (sf : String) (q : Int) :
    Event.encode i o sf (some q) ∉
      (runInput env inputPath node outRoot format quality recursive).1 := by
  unfold runInput
  cases node with
  | file content =>
    dsimp only
    rcases hdet : detectFormat content with _ | fmt
    · dsimp only
      simp
    · dsimp only
      simp [encode_some_not_in_processFileM env inputPath content inputPath
        outRoot format quality hf1 hf2 i o sf q]
  | dir entries =>
    dsimp only
    exact encode_some_not_in_processDir env entries inputPath inputPath
      outRoot format quality recursive hf1 hf2 i o sf q

end EncodeOptionLemmas

/-- C10: when the lowercased target format is png or webp, the supplied
quality string never influences the run: two invocations identical except
for the quality option produce identical event traces and results (the
internal quality is the constant 95), and no encode event of the run ever
carries a quality option — the encoder is always invoked with an empty
options record. -/
theorem c10_png_webp_quality_independent (env : Env) (inputPath : FsPath)
    (f q1 q2 : String) (o : Option FsPath) (r z : Bool)
    (hf : toLowerStr f = "png" ∨ toLowerStr f = "webp") :
    convertImages env inputPath ⟨f, q1, o, r, z⟩ =
        convertImages env inputPath ⟨f, q2, o, r, z⟩ ∧
      ∀ (i out : FsPath) (sf : String) (q : Int),
        Event.encode i out sf (some q) ∉
          (convertImages env inputPath ⟨f, q1, o, r, z⟩).1 := by
  refine ⟨convertImages_quality_irrelevant env inputPath f q1 q2 o r z hf, ?_⟩
  intro i out sf q
  have hf1 : toLowerStr f ≠ "jpg" := by
    rcases hf with hf | hf <;> rw [hf] <;> decide
  have hf2 : toLowerStr f ≠ "jpeg" := by
    rcases hf with hf | hf <;> rw [hf] <;> decide
  have hor : ¬(toLowerStr f = "jpg" ∨ toLowerStr f = "jpeg") := by
    rintro (h | h)
    · exact hf1 h
    · exact hf2 h
  have hjp : ¬((toLowerStr f = "jpg" ∨ toLowerStr f = "jpeg") ∧
      validateQuality q1 = false) := by
    rintro ⟨h, -⟩
    exact hor h
  have hv : validateFormat (toLowerStr f) = true := by
    rcases hf with hf | hf <;> rw [hf] <;> decide
  unfold convertImages
  dsimp only
  rw [if_neg (by simp [hv]), if_neg hjp, if_neg hor]
  cases env.input with
  | none => simp
  | some node =>
    dsimp only
    by_cases hz : z = true
    · rw [if_pos hz]
      cases hs : (runInput env inputPath node
          [".magic-images-tmp-" ++ env.tempName] (toLowerStr f) 95 r).2 with
      | error e =>
        dsimp only
        simp [encode_not_mem_ensure env _ i out sf (some q),
          encode_some_not_in_runInput env inputPath node
            [".magic-images-tmp-" ++ env.tempName] (toLowerStr f) 95 r hf1
            hf2 i out sf q]
      | ok u =>
        dsimp only
        by_cases hzz : env.zipOk = true
        · rw [if_pos hzz]
          simp [encode_not_mem_ensure env _ i out sf (some q),
            encode_some_not_in_runInput env inputPath node
              [".magic-images-tmp-" ++ env.tempName] (toLowerStr f) 95 r hf1
              hf2 i out sf q]
        · rw [if_neg hzz]
          simp [encode_not_mem_ensure env _ i out sf (some q),
            encode_some_not_in_runInput env inputPath node
              [".magic-images-tmp-" ++ env.tempName] (toLowerStr f) 95 r hf1
              hf2 i out sf q]
    · rw [if_neg hz]
      simp [encode_not_mem_ensure env _ i out sf (some q),
        encode_some_not_in_runInput env inputPath node (o.getD ["output"])
          (toLowerStr f) 95 r hf1 hf2 i out sf q]

/-- C10 witness: the quality-independence theorem at a concrete png-target
run with qualities `"1"` and `"100"`. -/
theorem c10_png_webp_quality_independent_witness :
    convertImages sampleEnv ["a.jpg"] ⟨"png", "1", none, false, false⟩ =
        convertImages sampleEnv ["a.jpg"] ⟨"png", "100", none, false, false⟩ ∧
      ∀ (i out : FsPath) (sf : String) (q : Int),
        Event.encode i out sf (some q) ∉
          (convertImages sampleEnv ["a.jpg"]
            ⟨"png", "1", none, false, false⟩).1 :=
  c10_png_webp_quality_independent sampleEnv ["a.jpg"] "png" "1" "100" none
    false false (Or.inl (by decide))

/-! ## Directory-walk analysis for C7 -/

/-- Input paths of the encode events of a trace: the files a run actually
submitted to the encoder. -/
def encodeInputs (evs : List Event) : List FsPath :=
  evs.filterMap fun e =>
    match e with
    | Event.encode i _ _ _ => some i
    | _ => none

def entryName : FSEntry → String
  | FSEntry.file n _ => n
  | FSEntry.dir n _ => n

mutual
/-- Sibling names are distinct at every level below this entry. -/
def wfSub : FSEntry → Bool
  | FSEntry.file _ _ => true
  | FSEntry.dir _ sub => decide ((sub.map entryName).Nodup) && wfList sub
def wfList : List FSEntry → Bool
  | [] => true
  | e :: rest => wfSub e && wfList rest
end

/-- Well-formed directory listing: sibling names are distinct at every
level (always true of a real filesystem). -/
def wfEntries (items : List FSEntry) : Bool :=
  decide ((items.map entryName).Nodup) && wfList items

/-- Specification side of C7 (from the spec's words): the convertible files
of the tree at every depth, each exactly once, listed with full paths. -/
def specConvertibleFiles : List FSEntry → FsPath → List FsPath
  | [], _ => []
  | FSEntry.file name content :: rest, cur =>
    (if (detectFormat content).isSome then [cur ++ [name]] else []) ++
      specConvertibleFiles rest cur
  | FSEntry.dir name sub :: rest, cur =>
    specConvertibleFiles sub (cur ++ [name]) ++
      specConvertibleFiles rest cur

section WalkLemmas

@[simp] lemma encodeInputs_nil : encodeInputs [] = [] := rfl

@[simp] lemma encodeInputs_cons_stat (p : FsPath) (l : List Event) :
    encodeInputs (Event.statPath p :: l) = encodeInputs l := rfl

@[simp] lemma encodeInputs_cons_access (p : FsPath) (l : List Event) :
    encodeInputs (Event.accessDir p :: l) = encodeInputs l := rfl

@[simp] lemma encodeInputs_cons_prompt (p : FsPath) (l : List Event) :
    encodeInputs (Event.promptUser p :: l) = encodeInputs l := rfl

@[simp] lemma encodeInputs_cons_mkdir (p : FsPath) (l : List Event) :
    encodeInputs (Event.mkdirDir p :: l) = encodeInputs l := rfl

@[simp] lemma encodeInputs_cons_read (p : FsPath) (l : List Event) :
    encodeInputs (Event.readFile p :: l) = encodeInputs l := rfl

@[simp] lemma encodeInputs_cons_encode (i o : FsPath) (sf : String)
    (qo : Option Int) (l : List Event) :
    encodeInputs (Event.encode i o sf qo :: l) = i :: encodeInputs l := rfl

@[simp] lemma encodeInputs_append (a b : List Event) :
    encodeInputs (a ++ b) = encodeInputs a ++ encodeInputs b :=
  List.filterMap_append a b _

lemma encodeInputs_processFileM (env : Env) (inputPath : FsPath)
    (content : List Nat) (base out : FsPath) (format : String)
    (quality : Int) :
    encodeInputs
        (processFileM env inputPath content base out format quality).1 =
      if (detectFormat content).isSome then [inputPath] else [] := by
  unfold processFileM convertImage
  cases detectFormat content
  · simp
  · dsimp only
    by_cases hrel : ((relAsList base inputPath).dropLast : FsPath) = [] <;>
      simp [hrel]

lemma processFileM_ok (env : Env) (hok : ∀ p, env.encodeOk p = true)
    (inputPath : FsPath) (content : List Nat) (base out : FsPath)
    (format : String) (quality : Int) :
    (processFileM env inputPath content base out format quality).2 =
      Except.ok () := by
  unfold processFileM convertImage
  cases detectFormat content
  · simp
  · simp [hok]

theorem processDir_ok (env : Env) (hok : ∀ p, env.encodeOk p = true)
    (items : List FSEntry) (cur base out : FsPath) (format : String)
    (quality : Int) (recursive : Bool) :
    (processDir env items cur base out format quality recursive).2 =
      Except.ok () :=
  match items with
  | [] => by simp [processDir]
  | FSEntry.dir name sub :: rest => by
    have ih1 := processDir_ok env hok sub (cur ++ [name]) base out format
      quality recursive
    have ih2 := processDir_ok env hok rest cur base out format quality
      recursive
    unfold processDir
    dsimp only
    by_cases hr : recursive = true
    · rw [if_pos hr, ih1]
      exact ih2
    · rw [if_neg hr]
      exact ih2
  | FSEntry.file name content :: rest => by
    have ihf := processFileM_ok env hok (cur ++ [name]) content base out
      format quality
    have ih2 := processDir_ok env hok rest cur base out format quality
      recursive
    unfold processDir
    dsimp only
    rcases hdet : detectFormat content with _ | fmt
    · dsimp only
      exact ih2
    · dsimp only
      rw [ihf]
      exact ih2

end WalkLemmas

section WalkTheorems

theorem processDir_nonrec_children (env : Env) (items : List FSEntry)
    (cur base out : FsPath) (format : String) (quality : Int) (p : FsPath)
    (hp : p ∈ encodeInputs
      (processDir env items cur base out format quality false).1) :
    ∃ nm, p = cur ++ [nm] :=
  match items with
  | [] => by simp [processDir] at hp
  | FSEntry.dir name sub :: rest => by
    refine processDir_nonrec_children env rest cur base out format quality
      p ?_
    unfold processDir at hp
    rw [if_neg (by simp)] at hp
    simpa using hp
  | FSEntry.file name content :: rest => by
    unfold processDir at hp
    dsimp only at hp
    rcases hdet : detectFormat content with _ | fmt
    · rw [hdet] at hp
      dsimp only at hp
      exact processDir_nonrec_children env rest cur base out format quality
        p (by simpa using hp)
    · rw [hdet] at hp
      dsimp only at hp
      rcases hpf : (processFileM env (cur ++ [name]) content base out format
          quality).2 with e | u
      · rw [hpf] at hp
        dsimp only at hp
        simp [encodeInputs_processFileM, hdet] at hp
        exact ⟨name, hp⟩
      · rw [hpf] at hp
        dsimp only at hp
        simp [encodeInputs_processFileM, hdet] at hp
        rcases hp with hp | hp
        · exact ⟨name, hp⟩
        · exact processDir_nonrec_children env rest cur base out format
            quality p (by simpa using hp)

end WalkTheorems

section WalkSpecTheorems

theorem processDir_rec_spec (env : Env)
    (hok : ∀ pth, env.encodeOk pth = true) (items : List FSEntry)
    (cur base out : FsPath) (format : String) (quality : Int) :
    encodeInputs
        (processDir env items cur base out format quality true).1 =
      specConvertibleFiles items cur :=
  match items with
  | [] => by simp [processDir, specConvertibleFiles]
  | FSEntry.dir name sub :: rest => by
    have ih1 := processDir_rec_spec env hok sub (cur ++ [name]) base out
      format quality
    have ih2 := processDir_rec_spec env hok rest cur base out format quality
    have hsub := processDir_ok env hok sub (cur ++ [name]) base out format
      quality true
    unfold processDir
    dsimp only
    rw [if_pos rfl, hsub]
    dsimp only
    simp [specConvertibleFiles, ih1, ih2]
  | FSEntry.file name content :: rest => by
    have ih2 := processDir_rec_spec env hok rest cur base out format quality
    have hokf := processFileM_ok env hok (cur ++ [name]) content base out
      format quality
    unfold processDir
    dsimp only
    rcases hdet : detectFormat content with _ | fmt
    · dsimp only
      simp [specConvertibleFiles, hdet, ih2]
    · dsimp only
      rw [hokf]
      dsimp only
      simp [specConvertibleFiles, hdet, ih2, encodeInputs_processFileM]

theorem specConvertibleFiles_shape (items : List FSEntry) (cur p : FsPath)
    (hp : p ∈ specConvertibleFiles items cur) :
    ∃ e ∈ items, ∃ tl, p = cur ++ entryName e :: tl :=
  match items with
  | [] => by simp [specConvertibleFiles] at hp
  | FSEntry.file name content :: rest => by
    unfold specConvertibleFiles at hp
    rw [List.mem_append] at hp
    rcases hp with hp | hp
    · by_cases hd : (detectFormat content).isSome
      · rw [if_pos hd] at hp
        simp only [List.mem_singleton] at hp
        exact ⟨FSEntry.file name content, List.mem_cons_self _ _, [],
          by simp [entryName, hp]⟩
      · rw [if_neg hd] at hp
        simp at hp
    · obtain ⟨e, he, tl, htl⟩ := specConvertibleFiles_shape rest cur p hp
      exact ⟨e, List.mem_cons_of_mem _ he, tl, htl⟩
  | FSEntry.dir name sub :: rest => by
    unfold specConvertibleFiles at hp
    rw [List.mem_append] at hp
    rcases hp with hp | hp
    · obtain ⟨e, he, tl, htl⟩ :=
        specConvertibleFiles_shape sub (cur ++ [name]) p hp
      refine ⟨FSEntry.dir name sub, List.mem_cons_self _ _,
        entryName e :: tl, ?_⟩
      simpa [entryName] using htl
    · obtain ⟨e, he, tl, htl⟩ := specConvertibleFiles_shape rest cur p hp
      exact ⟨e, List.mem_cons_of_mem _ he, tl, htl⟩

lemma wfEntries_names {items : List FSEntry}
    (h : wfEntries items = true) : (items.map entryName).Nodup := by
  unfold wfEntries at h
  rw [Bool.and_eq_true] at h
  exact of_decide_eq_true h.1

lemma wfEntries_cons {e : FSEntry} {rest : List FSEntry}
    (h : wfEntries (e :: rest) = true) :
    wfSub e = true ∧ wfEntries rest = true := by
  unfold wfEntries at h ⊢
  rw [Bool.and_eq_true] at h
  have hn := of_decide_eq_true h.1
  rw [List.map_cons, List.nodup_cons] at hn
  have hl := h.2
  unfold wfList at hl
  rw [Bool.and_eq_true] at hl
  exact ⟨hl.1, by rw [Bool.and_eq_true]
                  exact ⟨decide_eq_true hn.2, hl.2⟩⟩

lemma wfSub_dir {name : String} {sub : List FSEntry}
    (h : wfSub (FSEntry.dir name sub) = true) : wfEntries sub = true := by
  unfold wfSub at h
  unfold wfEntries
  exact h

theorem specConvertibleFiles_nodup (items : List FSEntry) (cur : FsPath)
    (hwf : wfEntries items = true) :
    (specConvertibleFiles items cur).Nodup :=
  match items with
  | [] => by simp [specConvertibleFiles]
  | FSEntry.file name content :: rest => by
    have hparts := wfEntries_cons hwf
    have ih := specConvertibleFiles_nodup rest cur hparts.2
    have hname : name ∉ rest.map entryName := by
      have hn := wfEntries_names hwf
      rw [List.map_cons, List.nodup_cons] at hn
      exact hn.1
    unfold specConvertibleFiles
    by_cases hd : (detectFormat content).isSome
    · rw [if_pos hd]
      refine List.Nodup.append (by simp) ih ?_
      intro q hq1 hq2
      rw [List.mem_singleton] at hq1
      subst hq1
      obtain ⟨e, he, tl, htl⟩ := specConvertibleFiles_shape rest cur _ hq2
      have hcan := List.append_cancel_left htl
      rw [List.cons.injEq] at hcan
      exact hname (hcan.1 ▸ List.mem_map_of_mem entryName he)
    · rw [if_neg hd]
      simpa using ih
  | FSEntry.dir name sub :: rest => by
    have hparts := wfEntries_cons hwf
    have hsub : wfEntries sub = true := wfSub_dir hparts.1
    have ih1 := specConvertibleFiles_nodup sub (cur ++ [name]) hsub
    have ih2 := specConvertibleFiles_nodup rest cur hparts.2
    have hname : name ∉ rest.map entryName := by
      have hn := wfEntries_names hwf
      rw [List.map_cons, List.nodup_cons] at hn
      exact hn.1
    unfold specConvertibleFiles
    refine List.Nodup.append ih1 ih2 ?_
    intro q hq1 hq2
    obtain ⟨e1, he1, tl1, h1⟩ :=
      specConvertibleFiles_shape sub (cur ++ [name]) q hq1
    obtain ⟨e2, he2, tl2, h2⟩ := specConvertibleFiles_shape rest cur q hq2
    rw [h1, List.append_assoc] at h2
    have hcan := List.append_cancel_left h2
    rw [List.singleton_append, List.cons.injEq] at hcan
    exact hname (hcan.1 ▸ List.mem_map_of_mem entryName he2)

end WalkSpecTheorems

/-- C7: a `processDirectory` walk with `recursive = false` only ever submits
direct children of the walked root to the encoder — never a file inside a
subdirectory — and raises no error for the skipped subdirectories (the walk
resolves); with `recursive = true` and well-formed sibling names it submits
exactly the convertible files of every depth, each exactly once (the
submitted list equals the full enumeration of convertible files and that
enumeration has no duplicates). -/
theorem c7_directory_walk (env : Env) (items : List FSEntry)
    (root out : FsPath) (format : String) (quality : Int)
    (hok : ∀ p, env.encodeOk p = true) (hwf : wfEntries items = true) :
    (∀ p ∈ encodeInputs
        (processDir env items root root out format quality false).1,
      ∃ nm, p = root ++ [nm]) ∧
      (processDir env items root root out format quality false).2 =
        Except.ok () ∧
      encodeInputs
          (processDir env items root root out format quality true).1 =
        specConvertibleFiles items root ∧
      (specConvertibleFiles items root).Nodup :=
  ⟨fun p hp =>
      processDir_nonrec_children env items root root out format quality p hp,
    processDir_ok env hok items root root out format quality false,
    processDir_rec_spec env hok items root root out format quality,
    specConvertibleFiles_nodup items root hwf⟩

/-- A concrete directory tree: one convertible file and one unsupported file
at the top level, plus one convertible file inside a subdirectory. -/
def c7Tree : List FSEntry :=
  [FSEntry.file "a.jpg" [0xFF, 0xD8, 0xFF, 0xE0],
    FSEntry.file "notes.txt" [0x68, 0x69, 0x0A, 0x0A],
    FSEntry.dir "sub"
      [FSEntry.file "b.png"
        [0x89, 0x50, 0x4E, 0x47, 0x0D, 0x0A, 0x1A, 0x0A]]]

/-- C7 witness: the walk theorem applied to the concrete tree. -/
theorem c7_directory_walk_witness :
    wfEntries c7Tree = true ∧
      ((∀ p ∈ encodeInputs
          (processDir sampleEnv c7Tree ["root"] ["root"] ["out"] "png" 95
            false).1, ∃ nm, p = ["root"] ++ [nm]) ∧
        (processDir sampleEnv c7Tree ["root"] ["root"] ["out"] "png" 95
            false).2 = Except.ok () ∧
        encodeInputs
            (processDir sampleEnv c7Tree ["root"] ["root"] ["out"] "png" 95
              true).1 = specConvertibleFiles c7Tree ["root"] ∧
        (specConvertibleFiles c7Tree ["root"]).Nodup) :=
  ⟨by decide,
    c7_directory_walk sampleEnv c7Tree ["root"] ["out"] "png" 95
      (fun _ => rfl) (by decide)⟩
